import Mathlib

namespace Sammi

/-- YAML-like values stored in attribute dictionaries. `cdf_attribute_manager.py`
and `schema.py` operate on `yaml.safe_load` results: scalars, lists and dicts. -/
inductive Val where
  | str : String → Val
  | int : Int → Val
  | bool : Bool → Val
  | null : Val
  | list : List Val → Val
  | dict : List (String × Val) → Val

mutual

/-- Structural equality on values (Python `==`/`!=` on loaded YAML data). -/
def Val.beq : Val → Val → Bool
  | .str a, .str b => a == b
  | .int a, .int b => a == b
  | .bool a, .bool b => a == b
  | .null, .null => true
  | .list a, .list b => Val.beqL a b
  | .dict a, .dict b => Val.beqO a b
  | _, _ => false

/-- Structural equality on lists of values. -/
def Val.beqL : List Val → List Val → Bool
  | [], [] => true
  | x :: xs, y :: ys => Val.beq x y && Val.beqL xs ys
  | _, _ => false

/-- Structural equality on association lists of values. -/
def Val.beqO : List (String × Val) → List (String × Val) → Bool
  | [], [] => true
  | (k, v) :: xs, (l, w) :: ys => k == l && Val.beq v w && Val.beqO xs ys
  | _, _ => false

end

mutual

theorem Val.beq_iff : ∀ a b : Val, Val.beq a b = true ↔ a = b
  | a, b => by
    cases a <;> cases b <;>
      simp only [Val.beq] <;>
      try simp
    case list.list a b => rw [Val.beqL_iff a b]
    case dict.dict a b => rw [Val.beqO_iff a b]

theorem Val.beqL_iff : ∀ a b : List Val, Val.beqL a b = true ↔ a = b
  | [], [] => by simp [Val.beqL]
  | [], _ :: _ => by simp [Val.beqL]
  | _ :: _, [] => by simp [Val.beqL]
  | x :: xs, y :: ys => by
    rw [show Val.beqL (x :: xs) (y :: ys) = (Val.beq x y && Val.beqL xs ys) from rfl]
    rw [Bool.and_eq_true, Val.beq_iff x y, Val.beqL_iff xs ys]
    simp

theorem Val.beqO_iff : ∀ a b : List (String × Val), Val.beqO a b = true ↔ a = b
  | [], [] => by simp [Val.beqO]
  | [], _ :: _ => by simp [Val.beqO]
  | _ :: _, [] => by simp [Val.beqO]
  | (k, v) :: xs, (l, w) :: ys => by
    rw [show Val.beqO ((k, v) :: xs) ((l, w) :: ys)
        = (k == l && Val.beq v w && Val.beqO xs ys) from rfl]
    rw [Bool.and_eq_true, Bool.and_eq_true, Val.beq_iff v w, Val.beqO_iff xs ys]
    simp

end

instance : DecidableEq Val := fun a b => decidable_of_iff _ (Val.beq_iff a b)

/-- A Python `dict` with string keys, modelled as an insertion-ordered
association list.  Python guarantees unique keys; uniqueness is carried as a
hypothesis in the theorems where it matters. -/
abbrev Obj := List (String × Val)

/-- Python `d[k]` (and the test `k in d`): the first binding of `k`. -/
def alookup {α : Type} : List (String × α) → String → Option α
  | [], _ => none
  | (k, v) :: rest, key => if k = key then some v else alookup rest key

/-- Python `d[k] = v`: replace the value at `k` in place (keeping its position),
or append a new binding at the end, exactly like dict assignment. -/
def aset {α : Type} : List (String × α) → String → α → List (String × α)
  | [], key, v => [(key, v)]
  | (k, w) :: rest, key, v =>
      if k = key then (k, v) :: rest else (k, w) :: aset rest key v

/-- Keys of an association list, in insertion order (Python `d.keys()`). -/
def keysOf {α : Type} (d : List (String × α)) : List String := d.map Prod.fst

mutual

/-- `CdfAttributeManager._merge` (cdf_attribute_manager.py lines 239-283): merge
`newLayer` into `base`, one key of `newLayer` at a time, via `cdfStep`. -/
def cdfMerge : Obj → Obj → Obj
  | base, [] => base
  | base, (k, v) :: rest => cdfMerge (cdfStep base k v) rest

/-- One iteration of the `for key in new_layer` loop of
`CdfAttributeManager._merge`: dict/dict recurses, list/list extends, otherwise
the new value replaces the base value when the two differ. -/
def cdfStep (base : Obj) (k : String) (v : Val) : Obj :=
  match alookup base k, v with
  | none, _ => aset base k v
  | some (.dict bd), .dict nd => aset base k (.dict (cdfMerge bd nd))
  | some (.list bl), .list nl => aset base k (.list (bl ++ nl))
  | some bv, _ => if bv = v then base else aset base k v

end

mutual

/-- `SWxSchema._merge` (schema.py lines 351-378): same loop as
`CdfAttributeManager._merge` but with a different branch structure, see
`swxStep`. -/
def swxMerge : Obj → Obj → Obj
  | base, [] => base
  | base, (k, v) :: rest => swxMerge (swxStep base k v) rest

/-- One iteration of the `for key in new_layer` loop of `SWxSchema._merge`.
In the source the dict/dict branch is a separate `if`, and the list/list check
with its `elif`-conflict arm runs afterwards: after the in-place recursive merge
of two dicts, `base_layer[key]` (now the merged dict) is compared with
`new_layer[key]` and overwritten by it when the two differ. -/
def swxStep (base : Obj) (k : String) (v : Val) : Obj :=
  match alookup base k, v with
  | none, _ => aset base k v
  | some (.dict bd), .dict nd =>
      let m := Val.dict (swxMerge bd nd)
      if m = v then aset base k m else aset base k v
  | some (.list bl), .list nl => aset base k (.list (bl ++ nl))
  | some bv, _ => if bv = v then base else aset base k v

end

/-- Python's substring test `pat in s` on strings, as used by the family scans
(`"DEPEND" in key`, etc.). -/
def strContains (s pat : String) : Bool := decide (pat.toList <:+: s.toList)

/-- One entry of the variable attribute schema's `attribute_key` mapping (the
YAML format documented at the top of `cdf_attribute_manager.py`).  The resolver
reads only `required`; the info operations also rewrite `description` and add
the derived `var_types` string, which is absent (`none`) as loaded. -/
structure VarAttrEntry where
  description : String
  required : Bool
  var_types : Option String := none
deriving DecidableEq

/-- The stored keys of a variable that contain `marker`
(`[key for key in self._variable_attributes[variable_name].keys() if marker in key]`,
cdf_attribute_manager.py lines 482-486 and the two analogous scans). -/
def matchingKeys (attrs : Obj) (marker : String) : List String :=
  (keysOf attrs).filter (fun k => strContains k marker)

/-- Copy each listed stored key into the output verbatim
(`for a in keys: output[a] = self._variable_attributes[variable_name][a]`). -/
def copyKeys (attrs : Obj) (output : Obj) : List String → Obj
  | [] => output
  | k :: rest =>
      copyKeys attrs
        (match alookup attrs k with
          | some v => aset output k v
          | none => output)
        rest

/-- The duplicate-sibling check of the `DEPEND_i` branch
(`len(set(variable_depend_attrs)) != len(variable_depend_attrs)`, lines 487-492):
`true` exactly when the warning is logged. -/
def dependDupWarning (attrs : Obj) : Bool :=
  decide ((matchingKeys attrs "DEPEND").dedup.length ≠ (matchingKeys attrs "DEPEND").length)

/-- One iteration of the schema loop of
`CdfAttributeManager.get_variable_attributes` (lines 473-534): direct match
first; then the three family placeholders, each scanning the stored keys for its
marker; then the required-but-missing soft-fail writing the empty string;
otherwise nothing is emitted. -/
def resolveVarStep (attrs : Obj) (output : Obj) (attrName : String)
    (entry : VarAttrEntry) : Obj :=
  match alookup attrs attrName with
  | some v => aset output attrName v
  | none =>
      if attrName = "DEPEND_i" then
        copyKeys attrs output (matchingKeys attrs "DEPEND")
      else if attrName = "LABL_PTR_i" then
        copyKeys attrs output (matchingKeys attrs "LABL_PTR")
      else if attrName = "REPRESENTATION_i" then
        copyKeys attrs output (matchingKeys attrs "REPRESENTATION")
      else if entry.required then
        aset output attrName (Val.str "")
      else output

/-- The schema loop of `get_variable_attributes` with `check_schema=True`,
iterating the `attribute_key` entries in order. -/
def resolveVarLoop (attrs : Obj) (output : Obj) :
    List (String × VarAttrEntry) → Obj
  | [] => output
  | (a, e) :: rest => resolveVarLoop attrs (resolveVarStep attrs output a e) rest

/-- The full schema loop of `get_variable_attributes` with `check_schema=True`,
starting from the empty output dict. -/
def resolveVar (schema : List (String × VarAttrEntry)) (attrs : Obj) : Obj :=
  resolveVarLoop attrs [] schema

/-- `CdfAttributeManager.get_variable_attributes` (lines 441-536); `none` models
a `KeyError` escaping.  With `check_schema=False` a never-loaded variable yields
the empty dict (lines 469-470, the `# TODO: throw an error?` path).  With
`check_schema=True` the loop body indexes `self._variable_attributes[variable_name]`
on its first iteration, so a never-loaded variable raises `KeyError` unless the
`attribute_key` schema is empty, in which case the loop never runs and `{}` is
returned. -/
def getVariableAttributes (store : List (String × Obj))
    (schema : List (String × VarAttrEntry)) (variableName : String)
    (checkSchema : Bool) : Option Obj :=
  if checkSchema = false then
    match alookup store variableName with
    | some attrs => some attrs
    | none => some []
  else
    match alookup store variableName with
    | some attrs => some (resolveVar schema attrs)
    | none => if schema.isEmpty then some [] else none

/-- One entry of the global attribute schema (the YAML format documented at the
top of `cdf_attribute_manager.py`). -/
structure GlobalAttrEntry where
  description : String
  default : Option Val := none
  required : Bool
deriving DecidableEq

/-- One iteration of the schema loop of
`CdfAttributeManager.get_global_attributes` (lines 349-362): top-level value
first; else the instrument-scoped sub-mapping (indexing
`self._global_attributes[instrument_id]` raises `KeyError`, modelled as `none`,
when the instrument id was never loaded; a loaded non-mapping value cannot be
indexed either and is likewise modelled as a failure); else `None` for a
required entry; else nothing. -/
def globalStep (globalAttrs : Obj) (instrumentId : Option String) (out : Obj)
    (a : String) (e : GlobalAttrEntry) : Option Obj :=
  match alookup globalAttrs a with
  | some v => some (aset out a v)
  | none =>
      match instrumentId with
      | none => some (if e.required then aset out a Val.null else out)
      | some iid =>
          match alookup globalAttrs iid with
          | some (.dict sub) =>
              match alookup sub a with
              | some v => some (aset out a v)
              | none => some (if e.required then aset out a Val.null else out)
          | some _ => none
          | none => none

/-- The schema loop of `get_global_attributes`, stopping with `none` as soon as
an iteration raises. -/
def globalLoop (globalAttrs : Obj) (instrumentId : Option String) (out : Obj) :
    List (String × GlobalAttrEntry) → Option Obj
  | [] => some out
  | (a, e) :: rest =>
      match globalStep globalAttrs instrumentId out a e with
      | some out1 => globalLoop globalAttrs instrumentId out1 rest
      | none => none

/-- `CdfAttributeManager.get_global_attributes` (lines 325-362), iterating the
global schema in order from the empty output dict. -/
def getGlobalAttributes (globalAttrs : Obj)
    (schema : List (String × GlobalAttrEntry)) (instrumentId : Option String) :
    Option Obj :=
  globalLoop globalAttrs instrumentId [] schema

/-- Python truthiness of an optional list: `not layers` is true for `None` and
for `[]`. -/
def pyTruthy : Option (List String) → Bool
  | none => false
  | some l => !l.isEmpty

/-- The `ValueError` guard of `CdfAttributeManager.__init__` (lines 107-115).
The `len(...) == 0` disjuncts run only when the list is not `None`
(short-circuit), so they are modelled as equality with `some []`. -/
def cdfInitRaises (useDefaults : Bool) (g v : Option (List String)) : Bool :=
  !useDefaults &&
    (!pyTruthy g || !pyTruthy v || decide (g = some []) || decide (v = some []))

/-- The `ValueError` guard of `SWxSchema.__init__` (lines 86-94): `is None`
checks instead of truthiness, then the same length checks. -/
def swxInitRaises (useDefaults : Bool) (g v : Option (List String)) : Bool :=
  !useDefaults &&
    (g.isNone || v.isNone || decide (g = some []) || decide (v = some []))

/-- Python's `str.strip()` whitespace set (space, tab, newline, carriage return,
vertical tab, form feed). -/
def isPySpace (c : Char) : Bool :=
  c == ' ' || c == '\t' || c == '\n' || c == '\r' || c == '\x0b' || c == '\x0c'

/-- Python's `str.strip()`: remove leading and trailing whitespace. -/
def pyStrip (s : String) : String :=
  String.mk (List.rdropWhile isPySpace (List.dropWhile isPySpace s.toList))

/-- Effect of `CdfAttributeManager.global_attribute_info` (lines 405-419) on the
stored global schema: `info = self.global_attribute_schema.copy()` is a shallow
copy, so `info[attr_name]["description"] = ....strip()` rewrites the nested
entry dicts that the store still shares; after the call the store's descriptions
are stripped in place. -/
def globalAttributeInfoState (schema : List (String × GlobalAttrEntry)) :
    List (String × GlobalAttrEntry) :=
  schema.map (fun p => (p.1, { p.2 with description := pyStrip p.2.description }))

/-- The variable attribute schema aggregate: the `attribute_key` mapping plus
the three class bucket lists. -/
structure VarSchema where
  attribute_key : List (String × VarAttrEntry)
  data : List String
  support_data : List String
  metadata : List String
deriving DecidableEq

/-- The derived comma-joined `var_types` display string for attribute `a`
(cdf_attribute_manager.py lines 593-601, schema.py lines 324-334). -/
def varTypesFor (s : VarSchema) (a : String) : String :=
  String.intercalate ", "
    ((if a ∈ s.data then ["data"] else []) ++
      (if a ∈ s.support_data then ["support_data"] else []) ++
      (if a ∈ s.metadata then ["metadata"] else []))

/-- Effect of `CdfAttributeManager.variable_attribute_info` (lines 556-611) and
`SWxSchema.measurement_attribute_info` (lines 283-349) on the stored variable
schema: the shallow `.copy()` (or no copy at all in `schema.py`) shares the
nested entry dicts, whose descriptions are stripped in place and which gain the
derived `var_types` string. -/
def variableAttributeInfoState (s : VarSchema) : VarSchema :=
  { s with
    attribute_key :=
      s.attribute_key.map
        (fun p =>
          (p.1,
            { p.2 with
              description := pyStrip p.2.description
              var_types := some (varTypesFor s p.1) })) }

mutual

/-- The value contains no sequences anywhere and every nested dict has unique
keys: the shape of overlays for which every merge branch taken is
scalar-replace or dict-merge (any list value reaching a shared key makes a
later re-merge concatenate).  Key uniqueness is the Python `dict` invariant. -/
def Val.wfnl : Val → Bool
  | .str _ => true
  | .int _ => true
  | .bool _ => true
  | .null => true
  | .list _ => false
  | .dict d => Val.wfnlObj d

/-- `Val.wfnl` for the bindings of a dict: unique keys, no list values. -/
def Val.wfnlObj : List (String × Val) → Bool
  | [] => true
  | (k, v) :: rest => !(decide (k ∈ keysOf rest)) && v.wfnl && Val.wfnlObj rest

end

section AssocLemmas

variable {α : Type}

theorem alookup_aset_self (d : List (String × α)) (k : String) (v : α) :
    alookup (aset d k v) k = some v := by
  induction d with
  | nil => simp [aset, alookup]
  | cons p rest ih =>
      obtain ⟨k', w⟩ := p
      by_cases h : k' = k
      · simp [aset, alookup, h]
      · simp [aset, alookup, h, ih]

theorem alookup_aset_ne (d : List (String × α)) {k k' : String} (v : α)
    (h : k' ≠ k) : alookup (aset d k' v) k = alookup d k := by
  induction d with
  | nil => simp [aset, alookup, h]
  | cons p rest ih =>
      obtain ⟨k'', w⟩ := p
      by_cases h2 : k'' = k'
      · subst h2
        simp [aset, alookup, h]
      · simp [aset, alookup, h2, ih]

theorem aset_eq_self (d : List (String × α)) {k : String} {v : α}
    (h : alookup d k = some v) : aset d k v = d := by
  induction d with
  | nil => simp [alookup] at h
  | cons p rest ih =>
      obtain ⟨k', w⟩ := p
      by_cases h2 : k' = k
      · subst h2
        simp [alookup] at h
        simp [aset, h]
      · simp [alookup, h2] at h
        simp [aset, h2, ih h]

theorem aset_eq_append (d : List (String × α)) {k : String} (v : α)
    (h : alookup d k = none) : aset d k v = d ++ [(k, v)] := by
  induction d with
  | nil => simp [aset]
  | cons p rest ih =>
      obtain ⟨k', w⟩ := p
      by_cases h2 : k' = k
      · simp [alookup, h2] at h
      · simp [alookup, h2] at h
        simp [aset, h2, ih h]

theorem alookup_eq_none_iff (d : List (String × α)) (k : String) :
    alookup d k = none ↔ k ∉ keysOf d := by
  induction d with
  | nil => simp [alookup, keysOf]
  | cons p rest ih =>
      obtain ⟨k', w⟩ := p
      by_cases h2 : k' = k
      · simp [alookup, keysOf, h2]
      · simp [alookup, keysOf, h2, ih, Ne.symm h2]

theorem mem_keysOf_of_alookup {d : List (String × α)} {k : String} {v : α}
    (h : alookup d k = some v) : k ∈ keysOf d := by
  by_contra hmem
  rw [← alookup_eq_none_iff] at hmem
  rw [h] at hmem
  exact Option.noConfusion hmem

theorem alookup_append_left {d e : List (String × α)} {k : String} {v : α}
    (h : alookup d k = some v) : alookup (d ++ e) k = some v := by
  induction d with
  | nil => simp [alookup] at h
  | cons p rest ih =>
      obtain ⟨k', w⟩ := p
      by_cases h2 : k' = k
      · simp_all [alookup]
      · simp_all [alookup]

theorem alookup_append_right {d : List (String × α)} (e : List (String × α))
    {k : String} (h : alookup d k = none) : alookup (d ++ e) k = alookup e k := by
  induction d with
  | nil => simp
  | cons p rest ih =>
      obtain ⟨k', w⟩ := p
      by_cases h2 : k' = k
      · simp [alookup, h2] at h
      · simp_all [alookup]

end AssocLemmas

section MergeLemmas

theorem cdfMerge_nil (base : Obj) : cdfMerge base [] = base := by
  rw [cdfMerge]

theorem cdfMerge_cons (base : Obj) (k : String) (v : Val) (rest : Obj) :
    cdfMerge base ((k, v) :: rest) = cdfMerge (cdfStep base k v) rest := by
  rw [cdfMerge]

theorem swxMerge_nil (base : Obj) : swxMerge base [] = base := by
  rw [swxMerge]

theorem swxMerge_cons (base : Obj) (k : String) (v : Val) (rest : Obj) :
    swxMerge base ((k, v) :: rest) = swxMerge (swxStep base k v) rest := by
  rw [swxMerge]

/-- The value that one iteration of `CdfAttributeManager._merge` leaves at the
processed key, as a function of the base's previous binding. -/
def mergedValC : Option Val → Val → Val
  | none, v => v
  | some (.dict bd), .dict nd => .dict (cdfMerge bd nd)
  | some (.list bl), .list nl => .list (bl ++ nl)
  | some _, v => v

/-- The value that one iteration of `SWxSchema._merge` leaves at the processed
key: because the post-recursion `elif` overwrites a merged sub-dict that
differs from the overlay's, the overlay value survives in every non-list case. -/
def mergedValS : Option Val → Val → Val
  | none, v => v
  | some (.list bl), .list nl => .list (bl ++ nl)
  | some _, v => v

theorem cdfStep_alookup_self (base : Obj) (k : String) (v : Val) :
    alookup (cdfStep base k v) k = some (mergedValC (alookup base k) v) := by
  unfold cdfStep mergedValC
  cases h : alookup base k with
  | none => simp [alookup_aset_self]
  | some bv =>
      cases bv <;> cases v <;> simp [alookup_aset_self] <;>
        (try split) <;> simp_all [alookup_aset_self]

theorem swxStep_alookup_self (base : Obj) (k : String) (v : Val) :
    alookup (swxStep base k v) k = some (mergedValS (alookup base k) v) := by
  unfold swxStep mergedValS
  cases h : alookup base k with
  | none => simp [alookup_aset_self]
  | some bv =>
      cases bv <;> cases v <;> simp [alookup_aset_self] <;>
        (try split) <;> simp_all [alookup_aset_self]

theorem cdfStep_alookup_ne (base : Obj) {k k' : String} (v : Val)
    (h : k ≠ k') : alookup (cdfStep base k' v) k = alookup base k := by
  unfold cdfStep
  cases h2 : alookup base k' with
  | none => simp [alookup_aset_ne _ _ (Ne.symm h)]
  | some bv =>
      cases bv <;> cases v <;> simp [alookup_aset_ne _ _ (Ne.symm h)] <;>
        (try split) <;> simp [alookup_aset_ne _ _ (Ne.symm h)]

theorem swxStep_alookup_ne (base : Obj) {k k' : String} (v : Val)
    (h : k ≠ k') : alookup (swxStep base k' v) k = alookup base k := by
  unfold swxStep
  cases h2 : alookup base k' with
  | none => simp [alookup_aset_ne _ _ (Ne.symm h)]
  | some bv =>
      cases bv <;> cases v <;> simp [alookup_aset_ne _ _ (Ne.symm h)] <;>
        (try split) <;> simp [alookup_aset_ne _ _ (Ne.symm h)]

theorem cdfMerge_alookup_not_mem (ov : Obj) :
    ∀ (base : Obj) {k : String}, k ∉ keysOf ov →
      alookup (cdfMerge base ov) k = alookup base k := by
  induction ov with
  | nil => intro base k _; rw [cdfMerge_nil]
  | cons p rest ih =>
      intro base k h
      obtain ⟨k', v⟩ := p
      simp only [keysOf, List.map_cons, List.mem_cons, not_or] at h
      rw [cdfMerge_cons, ih _ (by simpa [keysOf] using h.2),
        cdfStep_alookup_ne _ _ h.1]

theorem swxMerge_alookup_not_mem (ov : Obj) :
    ∀ (base : Obj) {k : String}, k ∉ keysOf ov →
      alookup (swxMerge base ov) k = alookup base k := by
  induction ov with
  | nil => intro base k _; rw [swxMerge_nil]
  | cons p rest ih =>
      intro base k h
      obtain ⟨k', v⟩ := p
      simp only [keysOf, List.map_cons, List.mem_cons, not_or] at h
      rw [swxMerge_cons, ih _ (by simpa [keysOf] using h.2),
        swxStep_alookup_ne _ _ h.1]

end MergeLemmas

section MergeAgreement

/-- Whether a value is a mapping (Python `isinstance(x, dict)`). -/
def Val.isDict : Val → Bool
  | .dict _ => true
  | _ => false

/-- Whether a value is a sequence (Python `isinstance(x, list)`). -/
def Val.isList : Val → Bool
  | .list _ => true
  | _ => false

theorem step_agree (base : Obj) (k : String) (v : Val)
    (h : v.isDict = false) : cdfStep base k v = swxStep base k v := by
  unfold cdfStep swxStep
  cases h2 : alookup base k with
  | none => rfl
  | some bv => cases bv <;> cases v <;> simp_all [Val.isDict]

theorem merge_agree (ov : Obj) :
    ∀ base : Obj, (∀ p ∈ ov, Val.isDict p.2 = false) →
      cdfMerge base ov = swxMerge base ov := by
  induction ov with
  | nil => intro base _; rw [cdfMerge_nil, swxMerge_nil]
  | cons p rest ih =>
      intro base h
      obtain ⟨k, v⟩ := p
      rw [cdfMerge_cons, swxMerge_cons, step_agree base k v (h (k, v) (by simp))]
      exact ih _ (fun q hq => h q (by simp [hq]))

end MergeAgreement

section MergeIdem

theorem wfnl_cons {k : String} {v : Val} {rest : Obj}
    (h : (Val.dict ((k, v) :: rest)).wfnl = true) :
    k ∉ keysOf rest ∧ v.wfnl = true ∧ (Val.dict rest).wfnl = true := by
  rw [Val.wfnl, Val.wfnlObj] at h
  simp only [Bool.and_eq_true, Bool.not_eq_true', decide_eq_false_iff_not] at h
  exact ⟨h.1.1, h.1.2, by rw [Val.wfnl]; exact h.2⟩

theorem cdfMerge_eq_append (nd : Obj) :
    ∀ acc : Obj, (Val.dict nd).wfnl = true →
      (∀ k ∈ keysOf nd, alookup acc k = none) → cdfMerge acc nd = acc ++ nd := by
  induction nd with
  | nil => intro acc _ _; rw [cdfMerge_nil]; simp
  | cons p rest ih =>
      intro acc hwf hdis
      obtain ⟨k, v⟩ := p
      obtain ⟨hk, _, hrest⟩ := wfnl_cons hwf
      have hacc : alookup acc k = none := hdis k (by simp [keysOf])
      have hstep : cdfStep acc k v = acc ++ [(k, v)] := by
        unfold cdfStep
        rw [hacc]
        exact aset_eq_append acc v hacc
      rw [cdfMerge_cons, hstep,
        ih (acc ++ [(k, v)]) hrest ?_]
      · simp
      · intro k' hk'
        have hne : k ≠ k' := fun he => hk (he ▸ hk')
        rw [alookup_append_right _ (hdis k' (List.mem_cons_of_mem _ hk'))]
        simp [alookup, hne]

theorem mergedValC_scalar (ob : Option Val) (v : Val)
    (hd : v.isDict = false) (hl : v.isList = false) : mergedValC ob v = v := by
  unfold mergedValC
  rcases ob with _ | bv
  · rfl
  · cases bv <;> cases v <;> simp_all [Val.isDict, Val.isList]

theorem cdfStep_dict (base : Obj) (k : String) {bd nd : List (String × Val)}
    (h : alookup base k = some (.dict bd)) :
    cdfStep base k (.dict nd) = aset base k (.dict (cdfMerge bd nd)) := by
  unfold cdfStep
  rw [h]

theorem cdfStep_of_alookup_eq (base : Obj) (k : String) (v : Val)
    (hd : v.isDict = false) (hl : v.isList = false)
    (h : alookup base k = some v) : cdfStep base k v = base := by
  unfold cdfStep
  rw [h]
  cases v <;> simp_all [Val.isDict, Val.isList]

theorem cdfMerge_idem_aux :
    ∀ (n : Nat) (ov : Obj), sizeOf ov ≤ n → (Val.dict ov).wfnl = true →
      ∀ base : Obj, cdfMerge (cdfMerge base ov) ov = cdfMerge base ov := by
  intro n
  induction n with
  | zero =>
      intro ov hsz _ _
      exfalso
      cases ov <;> simp at hsz
  | succ n ih =>
      intro ov hsz hwf base
      cases ov with
      | nil => rw [cdfMerge_nil, cdfMerge_nil]
      | cons p rest =>
          obtain ⟨k, v⟩ := p
          obtain ⟨hk, hv, hrest⟩ := wfnl_cons hwf
          have hszrest : sizeOf rest ≤ n := by
            simp only [List.cons.sizeOf_spec, Prod.mk.sizeOf_spec] at hsz
            omega
          rw [cdfMerge_cons base k v rest]
          rw [cdfMerge_cons (cdfMerge (cdfStep base k v) rest) k v rest]
          have F1 : alookup (cdfMerge (cdfStep base k v) rest) k
              = some (mergedValC (alookup base k) v) := by
            rw [cdfMerge_alookup_not_mem rest _ hk, cdfStep_alookup_self]
          have F2 : cdfStep (cdfMerge (cdfStep base k v) rest) k v
              = cdfMerge (cdfStep base k v) rest := by
            cases v with
            | list l => rw [Val.wfnl] at hv; exact absurd hv (by simp)
            | dict nd =>
                have hsznd : sizeOf nd ≤ n := by
                  simp only [List.cons.sizeOf_spec, Prod.mk.sizeOf_spec,
                    Val.dict.sizeOf_spec] at hsz
                  omega
                have hndnd : cdfMerge nd nd = nd := by
                  have h0 : cdfMerge ([] : Obj) nd = nd :=
                    cdfMerge_eq_append nd [] hv (fun _ _ => rfl)
                  have := ih nd hsznd hv []
                  rw [h0] at this
                  exact this
                obtain ⟨md, hmd, hmerged⟩ :
                    ∃ md, mergedValC (alookup base k) (Val.dict nd) = Val.dict md ∧
                      cdfMerge md nd = md := by
                  cases h3 : alookup base k with
                  | none => exact ⟨nd, rfl, hndnd⟩
                  | some bv =>
                      cases bv with
                      | dict bd => exact ⟨cdfMerge bd nd, rfl, ih nd hsznd hv bd⟩
                      | str s => exact ⟨nd, rfl, hndnd⟩
                      | int i => exact ⟨nd, rfl, hndnd⟩
                      | bool b => exact ⟨nd, rfl, hndnd⟩
                      | null => exact ⟨nd, rfl, hndnd⟩
                      | list l => exact ⟨nd, rfl, hndnd⟩
                rw [hmd] at F1
                rw [cdfStep_dict _ _ F1, hmerged]
                exact aset_eq_self _ F1
            | str s =>
                have hm : mergedValC (alookup base k) (Val.str s) = Val.str s :=
                  mergedValC_scalar _ _ rfl rfl
                rw [hm] at F1
                exact cdfStep_of_alookup_eq _ _ _ rfl rfl F1
            | int i =>
                have hm : mergedValC (alookup base k) (Val.int i) = Val.int i :=
                  mergedValC_scalar _ _ rfl rfl
                rw [hm] at F1
                exact cdfStep_of_alookup_eq _ _ _ rfl rfl F1
            | bool b =>
                have hm : mergedValC (alookup base k) (Val.bool b) = Val.bool b :=
                  mergedValC_scalar _ _ rfl rfl
                rw [hm] at F1
                exact cdfStep_of_alookup_eq _ _ _ rfl rfl F1
            | null =>
                have hm : mergedValC (alookup base k) Val.null = Val.null :=
                  mergedValC_scalar _ _ rfl rfl
                rw [hm] at F1
                exact cdfStep_of_alookup_eq _ _ _ rfl rfl F1
          rw [F2]
          exact ih rest hszrest hrest (cdfStep base k v)

theorem mergeListConcat (ov : Obj) :
    ∀ (base : Obj) {k : String} {bl nl : List Val}, (keysOf ov).Nodup →
      alookup base k = some (.list bl) → alookup ov k = some (.list nl) →
      alookup (cdfMerge base ov) k = some (.list (bl ++ nl)) ∧
      alookup (swxMerge base ov) k = some (.list (bl ++ nl)) := by
  induction ov with
  | nil => intro base k bl nl _ _ ho; simp [alookup] at ho
  | cons p rest ih =>
      intro base k bl nl hnd hb ho
      obtain ⟨k', v'⟩ := p
      have hnd2 : k' ∉ keysOf rest ∧ (keysOf rest).Nodup := by
        simpa only [keysOf, List.map_cons, List.nodup_cons] using hnd
      by_cases hkk : k' = k
      · subst hkk
        have hv : v' = Val.list nl := by simpa [alookup] using ho
        subst hv
        constructor
        · rw [cdfMerge_cons, cdfMerge_alookup_not_mem rest _ hnd2.1,
            cdfStep_alookup_self, hb]
          rfl
        · rw [swxMerge_cons, swxMerge_alookup_not_mem rest _ hnd2.1,
            swxStep_alookup_self, hb]
          rfl
      · have ho' : alookup rest k = some (Val.list nl) := by
          simpa [alookup, hkk] using ho
        refine ⟨?_, ?_⟩
        · rw [cdfMerge_cons]
          exact (ih (cdfStep base k' v') hnd2.2
            (by rw [cdfStep_alookup_ne _ _ (fun he => hkk he.symm)]; exact hb)
            ho').1
        · rw [swxMerge_cons]
          exact (ih (swxStep base k' v') hnd2.2
            (by rw [swxStep_alookup_ne _ _ (fun he => hkk he.symm)]; exact hb)
            ho').2

end MergeIdem

section ResolverLemmas

theorem matchingKeys_subset {attrs : Obj} {marker k : String}
    (h : k ∈ matchingKeys attrs marker) : k ∈ keysOf attrs :=
  List.mem_of_mem_filter h

theorem mem_matchingKeys {attrs : Obj} {marker k : String}
    (h1 : k ∈ keysOf attrs) (h2 : strContains k marker = true) :
    k ∈ matchingKeys attrs marker :=
  List.mem_filter.mpr ⟨h1, h2⟩

theorem copyKeys_preserve (attrs : Obj) (ks : List String) :
    ∀ (out : Obj) {k : String} {v : Val}, alookup attrs k = some v →
      alookup out k = some v → alookup (copyKeys attrs out ks) k = some v := by
  induction ks with
  | nil => intro out k v _ h2; exact h2
  | cons k' rest ih =>
      intro out k v h1 h2
      rw [copyKeys]
      by_cases hkk : k' = k
      · subst hkk
        rw [h1]
        exact ih _ h1 (alookup_aset_self _ _ _)
      · cases h3 : alookup attrs k' with
        | none => exact ih _ h1 h2
        | some w =>
            exact ih _ h1 (by rw [alookup_aset_ne _ _ hkk]; exact h2)

theorem copyKeys_mem (attrs : Obj) (ks : List String) :
    ∀ (out : Obj) {k : String} {v : Val}, alookup attrs k = some v → k ∈ ks →
      alookup (copyKeys attrs out ks) k = some v := by
  induction ks with
  | nil => intro out k v _ h; simp at h
  | cons k' rest ih =>
      intro out k v h1 hmem
      rw [copyKeys]
      by_cases hkk : k' = k
      · subst hkk
        rw [h1]
        exact copyKeys_preserve attrs rest _ h1 (alookup_aset_self _ _ _)
      · have hr : k ∈ rest := by
          rcases List.mem_cons.mp hmem with h | h
          · exact absurd h.symm hkk
          · exact h
        cases h3 : alookup attrs k' with
        | none => exact ih _ h1 hr
        | some w => exact ih _ h1 hr

theorem copyKeys_not_mem_attrs (attrs : Obj) (ks : List String) :
    ∀ (out : Obj) {a : String}, (∀ k ∈ ks, k ≠ a) →
      alookup (copyKeys attrs out ks) a = alookup out a := by
  induction ks with
  | nil => intro out a _; rfl
  | cons k' rest ih =>
      intro out a h
      rw [copyKeys]
      have hk' : k' ≠ a := h k' (by simp)
      have hrest : ∀ k ∈ rest, k ≠ a := fun k hk => h k (by simp [hk])
      cases h3 : alookup attrs k' with
      | none => exact ih _ hrest
      | some w =>
          rw [ih _ hrest, alookup_aset_ne _ _ hk']

theorem resolveVarStep_preserve (attrs out : Obj) (a : String)
    (e : VarAttrEntry) {k : String} {v : Val} (hav : alookup attrs k = some v)
    (hka : a ≠ k) (hout : alookup out k = some v) :
    alookup (resolveVarStep attrs out a e) k = some v := by
  unfold resolveVarStep
  cases h : alookup attrs a with
  | some w => rw [alookup_aset_ne _ _ hka]; exact hout
  | none =>
      split_ifs
      · exact copyKeys_preserve _ _ _ hav hout
      · exact copyKeys_preserve _ _ _ hav hout
      · exact copyKeys_preserve _ _ _ hav hout
      · rw [alookup_aset_ne _ _ hka]; exact hout
      · exact hout

theorem resolveVarLoop_preserve (attrs : Obj)
    (schema : List (String × VarAttrEntry)) :
    ∀ (out : Obj) {k : String} {v : Val},
      alookup attrs k = some v → k ∉ keysOf schema →
      alookup out k = some v →
      alookup (resolveVarLoop attrs out schema) k = some v := by
  induction schema with
  | nil => intro out k v _ _ h; exact h
  | cons p rest ih =>
      intro out k v hav hns hout
      obtain ⟨a, e⟩ := p
      simp only [keysOf, List.map_cons, List.mem_cons, not_or] at hns
      rw [resolveVarLoop]
      exact ih _ hav (by simpa [keysOf] using hns.2)
        (resolveVarStep_preserve attrs out a e hav (Ne.symm hns.1) hout)

theorem resolveVarLoop_family (attrs : Obj)
    (schema : List (String × VarAttrEntry)) :
    ∀ (out : Obj) {placeholder marker k : String} {v : Val},
      ((placeholder = "DEPEND_i" ∧ marker = "DEPEND") ∨
        (placeholder = "LABL_PTR_i" ∧ marker = "LABL_PTR") ∨
        (placeholder = "REPRESENTATION_i" ∧ marker = "REPRESENTATION")) →
      placeholder ∈ keysOf schema →
      alookup attrs placeholder = none →
      alookup attrs k = some v →
      strContains k marker = true →
      k ∉ keysOf schema →
      alookup (resolveVarLoop attrs out schema) k = some v := by
  induction schema with
  | nil =>
      intro out placeholder marker k v _ hp _ _ _ _
      simp [keysOf] at hp
  | cons p rest ih =>
      intro out placeholder marker k v hpm hp hnone hav hcont hks
      obtain ⟨a, e⟩ := p
      simp only [keysOf, List.map_cons, List.mem_cons, not_or] at hks
      rw [resolveVarLoop]
      by_cases hap : a = placeholder
      · subst hap
        have hkmem : k ∈ matchingKeys attrs marker :=
          mem_matchingKeys (mem_keysOf_of_alookup hav) hcont
        have hstep : alookup (resolveVarStep attrs out a e) k = some v := by
          unfold resolveVarStep
          rw [hnone]
          rcases hpm with ⟨hp1, hm1⟩ | ⟨hp1, hm1⟩ | ⟨hp1, hm1⟩
          · subst hp1; subst hm1
            rw [if_pos rfl]
            exact copyKeys_mem _ _ _ hav hkmem
          · subst hp1; subst hm1
            rw [if_neg (by decide : ¬("LABL_PTR_i" : String) = "DEPEND_i"),
              if_pos rfl]
            exact copyKeys_mem _ _ _ hav hkmem
          · subst hp1; subst hm1
            rw [if_neg (by decide : ¬("REPRESENTATION_i" : String) = "DEPEND_i"),
              if_neg (by decide : ¬("REPRESENTATION_i" : String) = "LABL_PTR_i"),
              if_pos rfl]
            exact copyKeys_mem _ _ _ hav hkmem
        exact resolveVarLoop_preserve attrs rest _ hav hks.2 hstep
      · have hp' : placeholder = a ∨ placeholder ∈ keysOf rest := by
          simpa only [keysOf, List.map_cons, List.mem_cons] using hp
        rcases hp' with h | h
        · exact absurd h.symm hap
        · exact ih _ hpm h hnone hav hcont hks.2

theorem resolveVarStep_stable_empty (attrs out : Obj) (a' : String)
    (e' : VarAttrEntry) {a : String} (hnone : alookup attrs a = none)
    (h1 : a ≠ "DEPEND_i") (h2 : a ≠ "LABL_PTR_i") (h3 : a ≠ "REPRESENTATION_i")
    (hout : alookup out a = some (Val.str "")) :
    alookup (resolveVarStep attrs out a' e') a = some (Val.str "") := by
  have hnm : ∀ marker, ∀ k ∈ matchingKeys attrs marker, k ≠ a := by
    intro marker k hk he
    subst he
    rw [alookup_eq_none_iff] at hnone
    exact hnone (matchingKeys_subset hk)
  unfold resolveVarStep
  cases h : alookup attrs a' with
  | some w =>
      have hne : a' ≠ a := by
        intro he
        subst he
        rw [h] at hnone
        exact Option.noConfusion hnone
      rw [alookup_aset_ne _ _ hne]
      exact hout
  | none =>
      split_ifs
      · rw [copyKeys_not_mem_attrs _ _ _ (hnm "DEPEND")]; exact hout
      · rw [copyKeys_not_mem_attrs _ _ _ (hnm "LABL_PTR")]; exact hout
      · rw [copyKeys_not_mem_attrs _ _ _ (hnm "REPRESENTATION")]; exact hout
      · by_cases haa : a' = a
        · subst haa
          rw [alookup_aset_self]
        · rw [alookup_aset_ne _ _ haa]
          exact hout
      · exact hout

theorem resolveVarLoop_stable_empty (attrs : Obj)
    (schema : List (String × VarAttrEntry)) :
    ∀ (out : Obj) {a : String}, alookup attrs a = none →
      a ≠ "DEPEND_i" → a ≠ "LABL_PTR_i" → a ≠ "REPRESENTATION_i" →
      alookup out a = some (Val.str "") →
      alookup (resolveVarLoop attrs out schema) a = some (Val.str "") := by
  induction schema with
  | nil => intro out a _ _ _ _ h; exact h
  | cons p rest ih =>
      intro out a hnone h1 h2 h3 hout
      obtain ⟨a', e'⟩ := p
      rw [resolveVarLoop]
      exact ih _ hnone h1 h2 h3
        (resolveVarStep_stable_empty attrs out a' e' hnone h1 h2 h3 hout)

theorem resolveVarLoop_required_missing (attrs : Obj)
    (schema : List (String × VarAttrEntry)) :
    ∀ (out : Obj) {a : String} {e : VarAttrEntry}, (a, e) ∈ schema →
      e.required = true → alookup attrs a = none →
      a ≠ "DEPEND_i" → a ≠ "LABL_PTR_i" → a ≠ "REPRESENTATION_i" →
      alookup (resolveVarLoop attrs out schema) a = some (Val.str "") := by
  induction schema with
  | nil => intro out a e h; simp at h
  | cons p rest ih =>
      intro out a e hmem hreq hnone h1 h2 h3
      obtain ⟨a', e'⟩ := p
      rw [resolveVarLoop]
      rcases List.mem_cons.mp hmem with h | h
      · obtain ⟨ha, he⟩ := Prod.mk.injEq .. ▸ h
        subst ha
        subst he
        have hstep : alookup (resolveVarStep attrs out a e) a
            = some (Val.str "") := by
          unfold resolveVarStep
          rw [hnone, if_neg h1, if_neg h2, if_neg h3, if_pos hreq,
            alookup_aset_self]
        exact resolveVarLoop_stable_empty attrs rest _ hnone h1 h2 h3 hstep
      · exact ih _ h hreq hnone h1 h2 h3

end ResolverLemmas

section GlobalLemmas

/-- The pure form of one `get_global_attributes` iteration when the
instrument-scoped sub-mapping `sub` is available (or empty when no instrument
id was given). -/
def globalStepP (globalAttrs sub out : Obj) (a : String) (e : GlobalAttrEntry) :
    Obj :=
  match alookup globalAttrs a with
  | some v => aset out a v
  | none =>
      match alookup sub a with
      | some v => aset out a v
      | none => if e.required then aset out a Val.null else out

/-- The value that `get_global_attributes` associates with schema entry
`(a, e)`: top-level value, else instrument-scoped value, else `None` when
required, else nothing. -/
def gval (globalAttrs sub : Obj) (a : String) (e : GlobalAttrEntry) :
    Option Val :=
  match alookup globalAttrs a with
  | some v => some v
  | none =>
      match alookup sub a with
      | some v => some v
      | none => if e.required then some Val.null else none

/-- Instrument resolution succeeds: either no instrument id was given (`sub`
stands in as the empty mapping) or the id is loaded and maps to a dict `sub`. -/
def InstOk (globalAttrs : Obj) (instrumentId : Option String) (sub : Obj) :
    Prop :=
  (instrumentId = none ∧ sub = []) ∨
    ∃ iid, instrumentId = some iid ∧ alookup globalAttrs iid = some (.dict sub)

theorem globalStep_eq {globalAttrs : Obj} {instrumentId : Option String}
    {sub : Obj} (hinst : InstOk globalAttrs instrumentId sub) (out : Obj)
    (a : String) (e : GlobalAttrEntry) :
    globalStep globalAttrs instrumentId out a e
      = some (globalStepP globalAttrs sub out a e) := by
  unfold globalStep globalStepP
  rcases hinst with ⟨h1, h2⟩ | ⟨iid, h1, h2⟩
  · subst h1
    subst h2
    cases alookup globalAttrs a <;> simp [alookup]
  · subst h1
    cases alookup globalAttrs a with
    | some v => rfl
    | none =>
        simp only [h2]
        cases alookup sub a <;> rfl

theorem globalStepP_alookup_self (globalAttrs sub out : Obj) (a : String)
    (e : GlobalAttrEntry) :
    alookup (globalStepP globalAttrs sub out a e) a
      = match gval globalAttrs sub a e with
        | some x => some x
        | none => alookup out a := by
  unfold globalStepP gval
  cases alookup globalAttrs a with
  | some v => simp [alookup_aset_self]
  | none =>
      cases alookup sub a with
      | some v => simp [alookup_aset_self]
      | none =>
          cases hr : e.required <;> simp [alookup_aset_self]

theorem globalStepP_alookup_ne (globalAttrs sub out : Obj) (a' : String)
    (e : GlobalAttrEntry) {a : String} (h : a' ≠ a) :
    alookup (globalStepP globalAttrs sub out a' e) a = alookup out a := by
  unfold globalStepP
  cases alookup globalAttrs a' with
  | some v => rw [alookup_aset_ne _ _ h]
  | none =>
      cases alookup sub a' with
      | some v => rw [alookup_aset_ne _ _ h]
      | none =>
          cases e.required <;> simp [alookup_aset_ne _ _ h]

/-- The pure form of the whole `get_global_attributes` loop. -/
def globalLoopP (globalAttrs sub out : Obj) :
    List (String × GlobalAttrEntry) → Obj
  | [] => out
  | (a, e) :: rest =>
      globalLoopP globalAttrs sub (globalStepP globalAttrs sub out a e) rest

theorem globalLoop_eq {globalAttrs : Obj} {instrumentId : Option String}
    {sub : Obj} (hinst : InstOk globalAttrs instrumentId sub)
    (schema : List (String × GlobalAttrEntry)) :
    ∀ out : Obj, globalLoop globalAttrs instrumentId out schema
      = some (globalLoopP globalAttrs sub out schema) := by
  induction schema with
  | nil => intro out; rfl
  | cons p rest ih =>
      intro out
      obtain ⟨a, e⟩ := p
      rw [globalLoop, globalLoopP, globalStep_eq hinst]
      exact ih _

theorem globalLoopP_not_mem (globalAttrs sub : Obj)
    (schema : List (String × GlobalAttrEntry)) :
    ∀ (out : Obj) {a : String}, a ∉ keysOf schema →
      alookup (globalLoopP globalAttrs sub out schema) a = alookup out a := by
  induction schema with
  | nil => intro out a _; rfl
  | cons p rest ih =>
      intro out a h
      obtain ⟨a', e'⟩ := p
      simp only [keysOf, List.map_cons, List.mem_cons, not_or] at h
      rw [globalLoopP, ih _ h.2, globalStepP_alookup_ne _ _ _ _ _ (Ne.symm h.1)]

theorem globalLoopP_mem (globalAttrs sub : Obj)
    (schema : List (String × GlobalAttrEntry)) :
    ∀ (out : Obj) {a : String} {e : GlobalAttrEntry},
      (keysOf schema).Nodup → (a, e) ∈ schema →
      alookup (globalLoopP globalAttrs sub out schema) a
        = match gval globalAttrs sub a e with
          | some x => some x
          | none => alookup out a := by
  induction schema with
  | nil => intro out a e _ h; simp at h
  | cons p rest ih =>
      intro out a e hnd hmem
      obtain ⟨a', e'⟩ := p
      have hnd2 : a' ∉ keysOf rest ∧ (keysOf rest).Nodup := by
        simpa only [keysOf, List.map_cons, List.nodup_cons] using hnd
      rw [globalLoopP]
      rcases List.mem_cons.mp hmem with h | h
      · obtain ⟨ha, he⟩ := Prod.mk.injEq .. ▸ h
        subst ha
        subst he
        rw [globalLoopP_not_mem _ _ _ _ hnd2.1, globalStepP_alookup_self]
      · have hne : a' ≠ a := by
          intro hx
          subst hx
          exact hnd2.1 (List.mem_map_of_mem Prod.fst h)
        rw [ih _ hnd2.2 h, globalStepP_alookup_ne _ _ _ _ _ hne]

end GlobalLemmas

section StripLemmas

theorem dropWhile_rdropWhile (l : List Char)
    (h : List.dropWhile isPySpace l = l) :
    List.dropWhile isPySpace (List.rdropWhile isPySpace l)
      = List.rdropWhile isPySpace l := by
  obtain ⟨t, ht⟩ := List.rdropWhile_prefix isPySpace l
  cases hr : List.rdropWhile isPySpace l with
  | nil => rfl
  | cons c cs =>
      rw [hr] at ht
      have hl : l = c :: (cs ++ t) := by rw [← ht]; simp
      have hc : ¬isPySpace c = true := by
        intro hb
        rw [hl, List.dropWhile_cons, if_pos hb] at h
        have h1 : (List.dropWhile isPySpace (cs ++ t)).length ≤ (cs ++ t).length :=
          (List.dropWhile_sublist _).length_le
        rw [h] at h1
        simp at h1
      rw [List.dropWhile_cons, if_neg hc]

theorem pyStrip_idem (s : String) : pyStrip (pyStrip s) = pyStrip s := by
  unfold pyStrip
  have h1 : (String.mk (List.rdropWhile isPySpace
      (List.dropWhile isPySpace s.toList))).toList
      = List.rdropWhile isPySpace (List.dropWhile isPySpace s.toList) := rfl
  rw [h1, dropWhile_rdropWhile _ (List.dropWhile_idempotent ..),
    List.rdropWhile_idempotent]

end StripLemmas

section DedupLemmas

theorem dedup_length_eq_iff (l : List String) :
    l.dedup.length = l.length ↔ l.Nodup := by
  constructor
  · intro h
    have heq := List.Sublist.eq_of_length (List.dedup_sublist l) h
    rw [← heq]
    exact List.nodup_dedup l
  · intro h
    rw [List.dedup_eq_self.mpr h]

end DedupLemmas

section InfoLemmas

theorem variableInfo_idem (s : VarSchema) :
    variableAttributeInfoState (variableAttributeInfoState s)
      = variableAttributeInfoState s := by
  obtain ⟨ak, d, sd, md⟩ := s
  simp only [variableAttributeInfoState, List.map_map]
  congr 1
  apply List.map_congr_left
  intro p _
  obtain ⟨k1, e1⟩ := p
  obtain ⟨d1, r1, v1⟩ := e1
  simp [Function.comp, pyStrip_idem, varTypesFor]

theorem globalInfo_idem (g : List (String × GlobalAttrEntry)) :
    globalAttributeInfoState (globalAttributeInfoState g)
      = globalAttributeInfoState g := by
  simp only [globalAttributeInfoState, List.map_map]
  apply List.map_congr_left
  intro p _
  obtain ⟨k1, e1⟩ := p
  obtain ⟨d1, df1, r1⟩ := e1
  simp [Function.comp, pyStrip_idem]

end InfoLemmas

theorem getVariableAttributes_loaded (store : List (String × Obj))
    (schema : List (String × VarAttrEntry)) (vname : String) {attrs : Obj}
    (h : alookup store vname = some attrs) :
    getVariableAttributes store schema vname true
      = some (resolveVar schema attrs) := by
  unfold getVariableAttributes
  rw [if_neg (by simp), h]

section Claims

/-- Concrete store for the C1 counterexample: the variable stores the literal
placeholder key `DEPEND_i` next to an indexed sibling `DEPEND_1`. -/
def c1Store : List (String × Obj) :=
  [("epoch", [("DEPEND_i", Val.str "x"), ("DEPEND_1", Val.str "y")])]

/-- Schema for the C1 counterexample: only the family placeholder. -/
def c1Schema : List (String × VarAttrEntry) :=
  [("DEPEND_i", { description := "depend", required := true })]

/-- Claim C1 counterexample: with schema `[DEPEND_i]` and stored attributes
`{DEPEND_i: x, DEPEND_1: y}`, the stored key `DEPEND_1` contains the family
marker `DEPEND` and does not appear literally in the schema, yet resolution
with `enforce_schema=true` does not copy it: the literal `DEPEND_i` stored key
is handled by the direct-match branch, which preempts the family scan, so the
output is `{DEPEND_i: x}` and `DEPEND_1` is absent. -/
theorem family_scan_preempted_counterexample :
    alookup c1Store "epoch"
      = some [("DEPEND_i", Val.str "x"), ("DEPEND_1", Val.str "y")] ∧
    "DEPEND_i" ∈ keysOf c1Schema ∧
    strContains "DEPEND_1" "DEPEND" = true ∧
    "DEPEND_1" ∉ keysOf c1Schema ∧
    getVariableAttributes c1Store c1Schema "epoch" true
      = some [("DEPEND_i", Val.str "x")] ∧
    alookup [("DEPEND_i", Val.str "x")] "DEPEND_1" = none := by
  refine ⟨by decide, by decide, by decide, by decide, by decide, by decide⟩

/-- Claim C1 (amended): for every loaded variable, a schema containing a family
placeholder (`DEPEND_i`, `LABL_PTR_i` or `REPRESENTATION_i`) makes resolution
with `enforce_schema=true` copy verbatim every stored key of that variable
containing the family's marker substring that is not literally in the schema —
for an unbounded number of indexed siblings — PROVIDED the placeholder key
itself is not among the stored keys (otherwise the direct-match branch preempts
the family scan, see `family_scan_preempted_counterexample`). -/
theorem family_scan_copies_stored_siblings (store : List (String × Obj))
    (schema : List (String × VarAttrEntry)) (vname : String) (attrs : Obj)
    (placeholder marker k : String) (v : Val)
    (hpm : (placeholder = "DEPEND_i" ∧ marker = "DEPEND") ∨
      (placeholder = "LABL_PTR_i" ∧ marker = "LABL_PTR") ∨
      (placeholder = "REPRESENTATION_i" ∧ marker = "REPRESENTATION"))
    (hload : alookup store vname = some attrs)
    (hschema : placeholder ∈ keysOf schema)
    (hnotstored : alookup attrs placeholder = none)
    (hk : alookup attrs k = some v)
    (hmark : strContains k marker = true)
    (hks : k ∉ keysOf schema) :
    ∃ out, getVariableAttributes store schema vname true = some out ∧
      alookup out k = some v :=
  ⟨resolveVar schema attrs, getVariableAttributes_loaded store schema vname hload,
    resolveVarLoop_family attrs schema [] hpm hschema hnotstored hk hmark hks⟩

/-- Store for the C1 witness, matching the spec's end-to-end example: variable
`epoch` stores `{DEPEND_1: x, DEPEND_2: y}` and the schema has no literal
`DEPEND_1`/`DEPEND_2` keys. -/
def c1wStore : List (String × Obj) :=
  [("epoch", [("DEPEND_1", Val.str "x"), ("DEPEND_2", Val.str "y")])]

/-- Schema for the C1 witness: only the `DEPEND_i` placeholder. -/
def c1wSchema : List (String × VarAttrEntry) :=
  [("DEPEND_i", { description := "depend", required := true })]

theorem family_scan_copies_stored_siblings_witness :
    alookup c1wStore "epoch"
        = some [("DEPEND_1", Val.str "x"), ("DEPEND_2", Val.str "y")] ∧
    "DEPEND_i" ∈ keysOf c1wSchema ∧
    (∃ out, getVariableAttributes c1wStore c1wSchema "epoch" true = some out ∧
      alookup out "DEPEND_2" = some (Val.str "y")) :=
  ⟨by decide, by decide,
    family_scan_copies_stored_siblings c1wStore c1wSchema "epoch"
      [("DEPEND_1", Val.str "x"), ("DEPEND_2", Val.str "y")]
      "DEPEND_i" "DEPEND" "DEPEND_2" (Val.str "y")
      (Or.inl ⟨rfl, rfl⟩) (by decide) (by decide) (by decide) (by decide)
      (by decide) (by decide)⟩

/-- Base mapping for the C2 counterexample. -/
def c2Base : Obj := [("k", Val.dict [("a", Val.str "1")])]

/-- Overlay mapping for the C2 counterexample. -/
def c2Ov : Obj := [("k", Val.dict [("b", Val.str "2")])]

/-- Claim C2 counterexample: the two merge implementations are NOT equivalent.
On base `{k: {a: 1}}` and overlay `{k: {b: 2}}`, `CdfAttributeManager._merge`
keeps the recursively merged sub-mapping `{a: 1, b: 2}`, while in
`SWxSchema._merge` the `elif` that follows the dict/dict `if` compares the
merged sub-dict with the overlay's and, finding them different, replaces it by
the overlay's `{b: 2}`. -/
theorem merge_implementations_differ :
    cdfMerge c2Base c2Ov
        = [("k", Val.dict [("a", Val.str "1"), ("b", Val.str "2")])] ∧
    swxMerge c2Base c2Ov = [("k", Val.dict [("b", Val.str "2")])] ∧
    cdfMerge c2Base c2Ov ≠ swxMerge c2Base c2Ov := by
  refine ⟨by decide, by decide, by decide⟩

/-- Claim C2 (amended): the two merge implementations agree on every base and
every overlay that carries no mapping-valued key (so the dict/dict branch —
the only place the two differ — is never taken); in the mapping-merge case
`CdfAttributeManager._merge` keeps the recursively merged sub-mapping while
`SWxSchema._merge` replaces it with the overlay's sub-mapping whenever the two
differ, see `merge_implementations_differ`. -/
theorem merge_implementations_agree_without_nested_dicts (base ov : Obj)
    (h : ∀ p ∈ ov, Val.isDict p.2 = false) :
    cdfMerge base ov = swxMerge base ov :=
  merge_agree ov base h

theorem merge_implementations_agree_without_nested_dicts_witness :
    (∀ p ∈ ([("x", Val.str "1"), ("l", Val.list [Val.int 2])] : Obj),
      Val.isDict p.2 = false) ∧
    cdfMerge [("x", Val.str "0"), ("l", Val.list [Val.int 1])]
        [("x", Val.str "1"), ("l", Val.list [Val.int 2])]
      = swxMerge [("x", Val.str "0"), ("l", Val.list [Val.int 1])]
        [("x", Val.str "1"), ("l", Val.list [Val.int 2])] :=
  ⟨by decide,
    merge_implementations_agree_without_nested_dicts
      [("x", Val.str "0"), ("l", Val.list [Val.int 1])]
      [("x", Val.str "1"), ("l", Val.list [Val.int 2])] (by decide)⟩

/-- Store for the C4 counterexample/witness: one loaded variable. -/
def c4Store : List (String × Obj) :=
  [("epoch", [("NOT_IN_SCHEMA", Val.str "n"), ("VALIDMIN", Val.int 0)])]

/-- A nonempty schema for the C4 counterexample. -/
def c4Schema : List (String × VarAttrEntry) :=
  [("CATDESC", { description := "d", required := true })]

/-- Claim C4 counterexample: resolving a never-loaded variable with
`enforce_schema=false` does NOT fail (no `NotFoundError`, nor any error): the
code's `# TODO: throw an error?` path returns the empty dict. -/
theorem unloaded_variable_returns_empty :
    alookup c4Store "missing" = none ∧
    getVariableAttributes c4Store c4Schema "missing" false = some [] ∧
    getVariableAttributes c4Store c4Schema "missing" false ≠ none := by
  refine ⟨by decide, by decide, by decide⟩

/-- Claim C4 (amended): with `enforce_schema=false`, resolution returns the raw
stored values mapping unchanged (including attributes absent from the schema)
when the variable was loaded, and returns the empty mapping — without failing —
when the variable was never loaded. -/
theorem raw_variable_resolution (store : List (String × Obj))
    (schema : List (String × VarAttrEntry)) (vname : String) :
    (∀ attrs, alookup store vname = some attrs →
      getVariableAttributes store schema vname false = some attrs) ∧
    (alookup store vname = none →
      getVariableAttributes store schema vname false = some []) := by
  constructor
  · intro attrs h
    unfold getVariableAttributes
    rw [if_pos rfl, h]
  · intro h
    unfold getVariableAttributes
    rw [if_pos rfl, h]

theorem raw_variable_resolution_witness :
    (alookup c4Store "epoch"
        = some [("NOT_IN_SCHEMA", Val.str "n"), ("VALIDMIN", Val.int 0)] ∧
      getVariableAttributes c4Store c4Schema "epoch" false
        = some [("NOT_IN_SCHEMA", Val.str "n"), ("VALIDMIN", Val.int 0)]) ∧
    (alookup c4Store "missing2" = none ∧
      getVariableAttributes c4Store c4Schema "missing2" false = some []) :=
  ⟨⟨by decide,
      (raw_variable_resolution c4Store c4Schema "epoch").1
        [("NOT_IN_SCHEMA", Val.str "n"), ("VALIDMIN", Val.int 0)] (by decide)⟩,
    ⟨by decide, (raw_variable_resolution c4Store c4Schema "missing2").2 (by decide)⟩⟩

/-- Base for the C5 list non-idempotence part. -/
def c5Base : Obj := [("k", Val.list [Val.str "a"])]

/-- Overlay for the C5 list non-idempotence part. -/
def c5Ov : Obj := [("k", Val.list [Val.str "b"])]

/-- Claim C5: merging the same overlay a second time is a no-op whenever the
overlay contains no sequence values at any depth (so every shared key falls in
the scalar-replace or mapping-merge case, in both applications); it is NOT
idempotent for sequences: with base `{k: [a]}` and overlay `{k: [b]}` the first
merge yields `{k: [a, b]}` and re-merging appends the overlay's entries again,
yielding `{k: [a, b, b]}`. -/
theorem merge_idempotence_behavior :
    (∀ base ov : Obj, (Val.dict ov).wfnl = true →
      cdfMerge (cdfMerge base ov) ov = cdfMerge base ov) ∧
    cdfMerge (cdfMerge c5Base c5Ov) c5Ov
        = [("k", Val.list [Val.str "a", Val.str "b", Val.str "b"])] ∧
    cdfMerge (cdfMerge c5Base c5Ov) c5Ov ≠ cdfMerge c5Base c5Ov := by
  refine ⟨?_, by decide, by decide⟩
  intro base ov h
  exact cdfMerge_idem_aux (sizeOf ov) ov le_rfl h base

/-- Base for the C5 witness. -/
def c5wBase : Obj := [("k", Val.dict [("a", Val.str "1")]), ("s", Val.str "x")]

/-- Overlay for the C5 witness: nested dict merge plus scalar replace. -/
def c5wOv : Obj :=
  [("k", Val.dict [("b", Val.str "2")]), ("s", Val.str "y"), ("n", Val.int 3)]

theorem merge_idempotence_behavior_witness :
    (Val.dict c5wOv).wfnl = true ∧
    cdfMerge (cdfMerge c5wBase c5wOv) c5wOv = cdfMerge c5wBase c5wOv :=
  ⟨by decide, merge_idempotence_behavior.1 c5wBase c5wOv (by decide)⟩

/-- Claim C6: for every key present in both base and overlay with list values
on both sides, both merge implementations store base's list concatenated with
overlay's list at that key (duplicates preserved, no de-duplication), and its
length is the sum of the two input lengths. -/
theorem list_merge_concatenates (base ov : Obj) (k : String) (bl nl : List Val)
    (hnd : (keysOf ov).Nodup) (hb : alookup base k = some (.list bl))
    (ho : alookup ov k = some (.list nl)) :
    alookup (cdfMerge base ov) k = some (.list (bl ++ nl)) ∧
    alookup (swxMerge base ov) k = some (.list (bl ++ nl)) ∧
    (bl ++ nl).length = bl.length + nl.length := by
  obtain ⟨h1, h2⟩ := mergeListConcat ov base hnd hb ho
  exact ⟨h1, h2, List.length_append _ _⟩

theorem list_merge_concatenates_witness :
    (keysOf ([("k", Val.list [Val.str "b", Val.str "a"])] : Obj)).Nodup ∧
    alookup ([("k", Val.list [Val.str "a"])] : Obj) "k"
        = some (.list [Val.str "a"]) ∧
    alookup (cdfMerge [("k", Val.list [Val.str "a"])]
        [("k", Val.list [Val.str "b", Val.str "a"])]) "k"
      = some (.list [Val.str "a", Val.str "b", Val.str "a"]) ∧
    ([Val.str "a"] ++ [Val.str "b", Val.str "a"]).length = 3 :=
  ⟨by decide, by decide,
    by
      have h := list_merge_concatenates [("k", Val.list [Val.str "a"])]
        [("k", Val.list [Val.str "b", Val.str "a"])] "k"
        [Val.str "a"] [Val.str "b", Val.str "a"]
        (by decide) (by decide) (by decide)
      exact h.1,
    by decide⟩

/-- Claim C3: global resolution processes each schema entry with this
priority: a top-level value for the name is used if present; otherwise, when an
instrument id was given and the instrument-scoped sub-mapping contains the
name, that value is used; otherwise a required entry maps to the `None` marker
without raising; otherwise the name is absent from the output. -/
theorem global_resolution_priority (globalAttrs : Obj)
    (schema : List (String × GlobalAttrEntry)) (instrumentId : Option String)
    (sub : Obj) (hinst : InstOk globalAttrs instrumentId sub)
    (hnd : (keysOf schema).Nodup) :
    ∃ out, getGlobalAttributes globalAttrs schema instrumentId = some out ∧
      ∀ a e, (a, e) ∈ schema →
        (∀ v, alookup globalAttrs a = some v → alookup out a = some v) ∧
        (alookup globalAttrs a = none →
          ∀ v, alookup sub a = some v → alookup out a = some v) ∧
        (alookup globalAttrs a = none → alookup sub a = none →
          e.required = true → alookup out a = some Val.null) ∧
        (alookup globalAttrs a = none → alookup sub a = none →
          e.required = false → alookup out a = none) := by
  refine ⟨globalLoopP globalAttrs sub [] schema, globalLoop_eq hinst schema [],
    ?_⟩
  intro a e hmem
  have hchar := globalLoopP_mem globalAttrs sub schema [] hnd hmem
  refine ⟨?_, ?_, ?_, ?_⟩
  · intro v hv
    rw [hchar]
    unfold gval
    rw [hv]
  · intro hg v hv
    rw [hchar]
    unfold gval
    rw [hg, hv]
  · intro hg hs hr
    rw [hchar]
    unfold gval
    rw [hg, hs, if_pos hr]
  · intro hg hs hr
    rw [hchar]
    unfold gval
    rw [hg, hs, if_neg (by simp [hr])]
    rfl

/-- Loaded global attributes for the C3 witness: one top-level value and one
instrument sub-mapping. -/
def c3Attrs : Obj :=
  [("Mission_group", Val.str "m"),
    ("inst", Val.dict [("Descriptor", Val.str "i")])]

/-- The instrument sub-mapping of `c3Attrs`. -/
def c3Sub : Obj := [("Descriptor", Val.str "i")]

/-- Global schema for the C3 witness: a top-level hit, an instrument-scoped
hit, a required miss and an optional miss. -/
def c3Schema : List (String × GlobalAttrEntry) :=
  [("Mission_group", { description := "", required := true }),
    ("Descriptor", { description := "", required := false }),
    ("Data_level", { description := "", required := true }),
    ("Optional_attr", { description := "", required := false })]

theorem global_resolution_priority_witness :
    InstOk c3Attrs (some "inst") c3Sub ∧
    (keysOf c3Schema).Nodup ∧
    (∃ out, getGlobalAttributes c3Attrs c3Schema (some "inst") = some out ∧
      ∀ a e, (a, e) ∈ c3Schema →
        (∀ v, alookup c3Attrs a = some v → alookup out a = some v) ∧
        (alookup c3Attrs a = none →
          ∀ v, alookup c3Sub a = some v → alookup out a = some v) ∧
        (alookup c3Attrs a = none → alookup c3Sub a = none →
          e.required = true → alookup out a = some Val.null) ∧
        (alookup c3Attrs a = none → alookup c3Sub a = none →
          e.required = false → alookup out a = none)) :=
  ⟨Or.inr ⟨"inst", rfl, by decide⟩, by decide,
    global_resolution_priority c3Attrs c3Schema (some "inst") c3Sub
      (Or.inr ⟨"inst", rfl, by decide⟩) (by decide)⟩

/-- Claim C7: construction raises `ValueError` (the spec's `ConfigError`)
exactly when the use-defaults flag is disabled and either layer list is empty
or `None`; when the flag is enabled, or both lists are non-empty, neither
implementation raises this error.  Both `CdfAttributeManager.__init__` and
`SWxSchema.__init__` guards are covered. -/
theorem init_raises_iff (u : Bool) (g v : Option (List String)) :
    (cdfInitRaises u g v = true ↔
      u = false ∧ (g = none ∨ g = some [] ∨ v = none ∨ v = some [])) ∧
    (swxInitRaises u g v = true ↔
      u = false ∧ (g = none ∨ g = some [] ∨ v = none ∨ v = some [])) := by
  cases u <;> rcases g with _ | ⟨_ | ⟨x, xs⟩⟩ <;>
    rcases v with _ | ⟨_ | ⟨y, ys⟩⟩ <;>
    simp [cdfInitRaises, swxInitRaises, pyTruthy]

/-- Claim C8: when a required schema attribute that is not a family placeholder
is absent from a loaded variable's stored values, resolution with
`enforce_schema=true` maps that attribute to the empty string in the output
and continues — a missing required attribute never makes resolution raise. -/
theorem required_missing_soft_fail (store : List (String × Obj))
    (schema : List (String × VarAttrEntry)) (vname : String) (attrs : Obj)
    (a : String) (e : VarAttrEntry)
    (hload : alookup store vname = some attrs)
    (hmem : (a, e) ∈ schema) (hreq : e.required = true)
    (hmiss : alookup attrs a = none)
    (h1 : a ≠ "DEPEND_i") (h2 : a ≠ "LABL_PTR_i")
    (h3 : a ≠ "REPRESENTATION_i") :
    ∃ out, getVariableAttributes store schema vname true = some out ∧
      alookup out a = some (Val.str "") :=
  ⟨resolveVar schema attrs, getVariableAttributes_loaded store schema vname hload,
    resolveVarLoop_required_missing attrs schema [] hmem hreq hmiss h1 h2 h3⟩

/-- Store for the C8 witness. -/
def c8Store : List (String × Obj) := [("epoch", [("VALIDMIN", Val.int 0)])]

/-- Schema for the C8 witness: `CATDESC` is required but not stored. -/
def c8Schema : List (String × VarAttrEntry) :=
  [("CATDESC", { description := "d", required := true }),
    ("VALIDMIN", { description := "d", required := true })]

theorem required_missing_soft_fail_witness :
    alookup c8Store "epoch" = some [("VALIDMIN", Val.int 0)] ∧
    ("CATDESC", { description := "d", required := true : VarAttrEntry })
        ∈ c8Schema ∧
    alookup ([("VALIDMIN", Val.int 0)] : Obj) "CATDESC" = none ∧
    (∃ out, getVariableAttributes c8Store c8Schema "epoch" true = some out ∧
      alookup out "CATDESC" = some (Val.str "")) :=
  ⟨by decide, by decide, by decide,
    required_missing_soft_fail c8Store c8Schema "epoch"
      [("VALIDMIN", Val.int 0)] "CATDESC"
      { description := "d", required := true }
      (by decide) (by decide) (by decide) (by decide) (by decide) (by decide)
      (by decide)⟩

/-- Variable schema for the C9 counterexample: an unstripped description and,
necessarily, no `var_types` field yet. -/
def c9Var : VarSchema :=
  { attribute_key :=
      [("CATDESC", { description := " desc\n", required := true })],
    data := ["CATDESC"], support_data := [], metadata := [] }

/-- Global schema for the C9 counterexample: an unstripped description. -/
def c9Glob : List (String × GlobalAttrEntry) :=
  [("Mission_group", { description := " m\n", required := true })]

/-- Claim C9 counterexample: the attribute-info listing operations DO mutate
the stored schemas after construction: through the shallow `.copy()` the nested
entry dicts are shared, so their descriptions are stripped in place and each
variable entry gains the derived `var_types` string; the stored schemas no
longer equal their post-construction state. -/
theorem info_mutates_store :
    variableAttributeInfoState c9Var ≠ c9Var ∧
    globalAttributeInfoState c9Glob ≠ c9Glob := by
  refine ⟨by decide, by decide⟩

/-- Claim C9 (amended): the info listing operations mutate the stored schemas,
but only as an idempotent normalization — descriptions stripped in place and
the derived `var_types` string added — which changes no attribute name, no
required flag, no default value and no class bucket list; a second call leaves
the store unchanged. -/
theorem info_normalizes_store (s : VarSchema)
    (g : List (String × GlobalAttrEntry)) :
    variableAttributeInfoState (variableAttributeInfoState s)
        = variableAttributeInfoState s ∧
    globalAttributeInfoState (globalAttributeInfoState g)
        = globalAttributeInfoState g ∧
    keysOf (variableAttributeInfoState s).attribute_key
        = keysOf s.attribute_key ∧
    (variableAttributeInfoState s).attribute_key.map (fun p => p.2.required)
        = s.attribute_key.map (fun p => p.2.required) ∧
    (variableAttributeInfoState s).data = s.data ∧
    (variableAttributeInfoState s).support_data = s.support_data ∧
    (variableAttributeInfoState s).metadata = s.metadata ∧
    keysOf (globalAttributeInfoState g) = keysOf g ∧
    (globalAttributeInfoState g).map (fun p => p.2.required)
        = g.map (fun p => p.2.required) ∧
    (globalAttributeInfoState g).map (fun p => p.2.default)
        = g.map (fun p => p.2.default) := by
  refine ⟨variableInfo_idem s, globalInfo_idem g, ?_, ?_, rfl, rfl, rfl, ?_, ?_,
    ?_⟩ <;>
    simp [variableAttributeInfoState, globalAttributeInfoState, keysOf,
      List.map_map, Function.comp]

/-- Claim C10: the duplicate-sibling warning of the `DEPEND_i` branch is
emitted if and only if the keys collected for the variable (those containing
the `DEPEND` marker) contain a duplicate; since a stored attribute mapping has
unique keys, the duplicate branch is unreachable for every such input. -/
theorem depend_duplicate_warning_unreachable (attrs : Obj) :
    (dependDupWarning attrs = true ↔ ¬(matchingKeys attrs "DEPEND").Nodup) ∧
    ((keysOf attrs).Nodup → dependDupWarning attrs = false) := by
  have hchar : dependDupWarning attrs = true ↔
      ¬(matchingKeys attrs "DEPEND").Nodup := by
    unfold dependDupWarning
    rw [decide_eq_true_iff]
    exact not_congr (dedup_length_eq_iff _)
  refine ⟨hchar, fun hnd => ?_⟩
  have hfil : (matchingKeys attrs "DEPEND").Nodup := List.Nodup.filter _ hnd
  cases hb : dependDupWarning attrs with
  | false => rfl
  | true => exact absurd (hchar.mp hb) (not_not_intro hfil)

theorem depend_duplicate_warning_unreachable_witness :
    (keysOf ([("DEPEND_0", Val.str "a"), ("DEPEND_1", Val.str "b"),
        ("CATDESC", Val.str "c")] : Obj)).Nodup ∧
    dependDupWarning
        [("DEPEND_0", Val.str "a"), ("DEPEND_1", Val.str "b"),
          ("CATDESC", Val.str "c")] = false :=
  ⟨by decide,
    (depend_duplicate_warning_unreachable
      [("DEPEND_0", Val.str "a"), ("DEPEND_1", Val.str "b"),
        ("CATDESC", Val.str "c")]).2 (by decide)⟩

end Claims

end Sammi
